import Mathlib

/-!
Verification of the ROI statistics engine of the 2024-RP-3E-RHEED repository.

The development shallowly embeds the three core modules:
  roi_mask_utils.py      (geometry-to-mask resolver, pure functions),
  roi_data_cache.py      (the statistic cache, modelled as explicit state passing),
  roi_computation_engine.py (the bulk-task path of the scheduler, linearized).

Numeric values are modelled by rationals; frames are height x width grids of
rationals accessed through a total pixel function (reads happen only in bounds,
as in the source).  Python `None` becomes `Option.none`; a Python exception
escaping an operation is modelled by an `Option.none` result where relevant.
-/

/-- A 2D image frame: shape (height, width) plus the pixel values.
`pixel y x` is `frame_data[y, x]` of the source (row = y, column = x). -/
structure Frame where
  height : Nat
  width : Nat
  pixel : Nat → Nat → ℚ

/-- Embeds `frame_data is None or frame_data.size == 0` of `compute_mean_for_roi`. -/
def frameDegenerate : Option Frame → Bool
  | none => true
  | some f => f.height * f.width == 0

/-- Python `int()` applied to a rational: truncation toward zero. -/
def pyInt (q : ℚ) : ℤ := if q < 0 then ⌈q⌉ else ⌊q⌋

/-- The ROI shape descriptors the resolver dispatches on.  Geometry getters that
can return `None` in the source are `Option`-typed; the ellipse orientation is
carried as the pair (cos, sin) of the orientation angle, since the source only
ever applies the angle through `np.cos`/`np.sin` (orientation 0 is the pair
(1, 0), for which the rotated and unrotated formulas of the source coincide). -/
inductive Roi
  | point (pos : Option (ℚ × ℚ))
  | cross (pos : Option (ℚ × ℚ))
  | line (endpoints : Option ((ℚ × ℚ) × (ℚ × ℚ)))
  | hline (pos : Option ℚ)
  | vline (pos : Option ℚ)
  | rect (origin size : Option (ℚ × ℚ))
  | circle (center : Option (ℚ × ℚ)) (radius : Option ℚ)
  | ellipse (center : Option (ℚ × ℚ)) (params : Option (ℚ × ℚ × ℚ × ℚ))
  | polygon (points : List (ℚ × ℚ))
  | arc (center : Option (ℚ × ℚ)) (innerRadius outerRadius : Option ℚ)

/-- All grid coordinates (y, x) of an h x w frame, row-major. -/
def gridPoints (h w : Nat) : List (Nat × Nat) :=
  (List.range h).foldr (fun y acc => ((List.range w).map (fun x => (y, x))) ++ acc) []

/-- Embeds the final step of `_compute_mask_mean`: mean of the pixels selected by a boolean
mask, `0` when the mask selects nothing (`mask.sum() == 0`). -/
def maskMean (f : Frame) (mask : Nat → Nat → Bool) : ℚ :=
  let pts := (gridPoints f.height f.width).filter (fun p => mask p.1 p.2)
  if pts.length = 0 then 0
  else (pts.map (fun p => f.pixel p.1 p.2)).sum / (pts.length : ℚ)

/-- Embeds `ROIMaskUtils._create_rectangle_mask`: half-open box test
`(x >= x0) & (x < x0 + w) & (y >= y0) & (y < y0 + h)`;
missing origin or size gives the all-false mask. -/
def create_rectangle_mask (origin size : Option (ℚ × ℚ)) : Nat → Nat → Bool :=
  match origin, size with
  | some (x0, y0), some (w, h) =>
    fun y x => decide (x0 ≤ (x : ℚ) ∧ (x : ℚ) < x0 + w ∧ y0 ≤ (y : ℚ) ∧ (y : ℚ) < y0 + h)
  | _, _ => fun _ _ => false

/-- Embeds `ROIMaskUtils._create_circle_mask`: closed disk by squared distance;
missing center/radius or `radius <= 0` gives the all-false mask. -/
def create_circle_mask (center : Option (ℚ × ℚ)) (radius : Option ℚ) : Nat → Nat → Bool :=
  match center, radius with
  | some (cx, cy), some r =>
    if r ≤ 0 then fun _ _ => false
    else fun y x => decide (((x : ℚ) - cx) ^ 2 + ((y : ℚ) - cy) ^ 2 ≤ r ^ 2)
  | _, _ => fun _ _ => false

/-- Embeds `ROIMaskUtils._create_ellipse_mask`: rotated quadratic form `<= 1`;
`params = (major, minor, cos of orientation, sin of orientation)`, `none`
modelling the `except` branch of the getter block; nonpositive radii or a
missing center give the all-false mask. -/
def create_ellipse_mask (center : Option (ℚ × ℚ)) (params : Option (ℚ × ℚ × ℚ × ℚ)) :
    Nat → Nat → Bool :=
  match center, params with
  | some (cx, cy), some (maj, minr, c, s) =>
    if maj ≤ 0 ∨ minr ≤ 0 then fun _ _ => false
    else fun y x =>
      let xc := (x : ℚ) - cx
      let yc := (y : ℚ) - cy
      let xr := xc * c + yc * s
      let yr := -xc * s + yc * c
      decide (xr ^ 2 / maj ^ 2 + yr ^ 2 / minr ^ 2 ≤ 1)
  | _, _ => fun _ _ => false

/-- One edge of the even-odd crossing test: does the horizontal ray from `p`
cross the segment from `a` to `b`? -/
def edgeCrosses (p a b : ℚ × ℚ) : Bool :=
  decide (((a.2 ≤ p.2 ∧ p.2 < b.2) ∨ (b.2 ≤ p.2 ∧ p.2 < a.2)) ∧
          p.1 < a.1 + (p.2 - a.2) * (b.1 - a.1) / (b.2 - a.2))

/-- Point-in-polygon by the even-odd/crossing rule, the test
`matplotlib.path.Path.contains_points` performs in `_create_polygon_mask`. -/
def pointInPolygon (pts : List (ℚ × ℚ)) (p : ℚ × ℚ) : Bool :=
  let n := pts.length
  ((List.range n).filter (fun i =>
    edgeCrosses p (pts.getD i (0, 0)) (pts.getD ((i + 1) % n) (0, 0)))).length % 2 == 1

/-- Embeds `ROIMaskUtils._create_polygon_mask`: fewer than 3 points gives the
all-false mask, otherwise the even-odd point-in-polygon test at (x, y). -/
def create_polygon_mask (pts : List (ℚ × ℚ)) : Nat → Nat → Bool :=
  if pts.length < 3 then fun _ _ => false
  else fun y x => pointInPolygon pts ((x : ℚ), (y : ℚ))

/-- Embeds `ROIMaskUtils._create_arc_mask`: annulus test, start/end angles ignored
(known simplification of the source); any missing parameter gives the
all-false mask. -/
def create_arc_mask (center : Option (ℚ × ℚ)) (innerRadius outerRadius : Option ℚ) :
    Nat → Nat → Bool :=
  match center, innerRadius, outerRadius with
  | some (cx, cy), some ri, some ro =>
    fun y x =>
      decide (ri ^ 2 ≤ ((x : ℚ) - cx) ^ 2 + ((y : ℚ) - cy) ^ 2 ∧
              ((x : ℚ) - cx) ^ 2 + ((y : ℚ) - cy) ^ 2 ≤ ro ^ 2)
  | _, _, _ => fun _ _ => false

/-- Embeds `ROIMaskUtils._compute_point_mean`: truncate the position with `int()`,
bounds-check the truncated indices, sample the single pixel or return 0. -/
def compute_point_mean (pos : Option (ℚ × ℚ)) (f : Frame) : ℚ :=
  match pos with
  | none => 0
  | some (x, y) =>
    let ix := pyInt x
    let iy := pyInt y
    if 0 ≤ iy ∧ iy < (f.height : ℤ) ∧ 0 ≤ ix ∧ ix < (f.width : ℤ)
    then f.pixel iy.toNat ix.toNat else 0

/-- The loop body of `ROIMaskUtils._bresenham_line`, with explicit fuel (the
source's `while True` terminates within `|dx| + |dy| + 1` iterations, which is
the fuel `bresenham_line` supplies). -/
def bresenhamGo (fuel : Nat) (x y x1 y1 dx dy sx sy err : ℤ) : List (ℤ × ℤ) :=
  match fuel with
  | 0 => []
  | Nat.succ fuel' =>
    (x, y) ::
      (if x = x1 ∧ y = y1 then []
       else
         let e2 := 2 * err
         let moveX := decide (e2 > -dy)
         let err1 := if moveX then err - dy else err
         let x' := if moveX then x + sx else x
         let moveY := decide (e2 < dx)
         let err2 := if moveY then err1 + dx else err1
         let y' := if moveY then y + sy else y
         bresenhamGo fuel' x' y' x1 y1 dx dy sx sy err2)

/-- Embeds `ROIMaskUtils._bresenham_line`. -/
def bresenham_line (x0 y0 x1 y1 : ℤ) : List (ℤ × ℤ) :=
  let dx := (x1 - x0).natAbs
  let dy := (y1 - y0).natAbs
  let sx : ℤ := if x0 < x1 then 1 else -1
  let sy : ℤ := if y0 < y1 then 1 else -1
  bresenhamGo (dx + dy + 1) x0 y0 x1 y1 (dx : ℤ) (dy : ℤ) sx sy ((dx : ℤ) - (dy : ℤ))

/-- Embeds `ROIMaskUtils._compute_line_mean`: Bresenham rasterization of the truncated
endpoints, filter to in-bounds pixels, arithmetic mean (0 on no valid pixel). -/
def compute_line_mean (endpoints : Option ((ℚ × ℚ) × (ℚ × ℚ))) (f : Frame) : ℚ :=
  match endpoints with
  | none => 0
  | some ((sx, sy), (ex, ey)) =>
    let coords := bresenham_line (pyInt sx) (pyInt sy) (pyInt ex) (pyInt ey)
    if coords.length = 0 then 0
    else
      let valid := coords.filter (fun c =>
        decide (0 ≤ c.2 ∧ c.2 < (f.height : ℤ) ∧ 0 ≤ c.1 ∧ c.1 < (f.width : ℤ)))
      if valid.length = 0 then 0
      else (valid.map (fun c => f.pixel c.2.toNat c.1.toNat)).sum / (valid.length : ℚ)

/-- Mean of row `y` of a frame (`np.mean(frame_data[y, :])`).  The `width = 0`
guard is unreachable from the resolver (degenerate frames are rejected first)
and only keeps the definition total. -/
def rowMean (f : Frame) (y : Nat) : ℚ :=
  if f.width = 0 then 0
  else ((List.range f.width).map (fun x => f.pixel y x)).sum / (f.width : ℚ)

/-- Mean of column `x` of a frame (`np.mean(frame_data[:, x])`). -/
def colMean (f : Frame) (x : Nat) : ℚ :=
  if f.height = 0 then 0
  else ((List.range f.height).map (fun y => f.pixel y x)).sum / (f.height : ℚ)

/-- Embeds `ROIMaskUtils._compute_horizontal_line_mean`. -/
def compute_horizontal_line_mean (pos : Option ℚ) (f : Frame) : ℚ :=
  match pos with
  | none => 0
  | some p =>
    let y := pyInt p
    if 0 ≤ y ∧ y < (f.height : ℤ) then rowMean f y.toNat else 0

/-- Embeds `ROIMaskUtils._compute_vertical_line_mean`. -/
def compute_vertical_line_mean (pos : Option ℚ) (f : Frame) : ℚ :=
  match pos with
  | none => 0
  | some p =>
    let x := pyInt p
    if 0 ≤ x ∧ x < (f.width : ℤ) then colMean f x.toNat else 0

/-- Embeds `ROIMaskUtils._compute_mask_mean`: dispatch to the shape's mask builder,
then average over the mask (shape kinds that reach this helper only). -/
def compute_mask_mean (roi : Roi) (f : Frame) : ℚ :=
  match roi with
  | .rect origin size => maskMean f (create_rectangle_mask origin size)
  | .circle center radius => maskMean f (create_circle_mask center radius)
  | .ellipse center params => maskMean f (create_ellipse_mask center params)
  | .polygon pts => maskMean f (create_polygon_mask pts)
  | .arc center ri ro => maskMean f (create_arc_mask center ri ro)
  | _ => 0

/-- Embeds `ROIMaskUtils.compute_mean_for_roi`: reject missing/empty frames, dispatch
on the shape kind.  The `try`/`except` boundary of the source is modelled by
the helpers' explicit 0-returning failure branches, so the function is total. -/
def compute_mean_for_roi (roi : Roi) (frameData : Option Frame) : ℚ :=
  match frameData with
  | none => 0
  | some f =>
    if f.height * f.width = 0 then 0
    else
      match roi with
      | .point pos => compute_point_mean pos f
      | .cross pos => compute_point_mean pos f
      | .line endpoints => compute_line_mean endpoints f
      | .hline pos => compute_horizontal_line_mean pos f
      | .vline pos => compute_vertical_line_mean pos f
      | _ => compute_mask_mean roi f

/-- Malformed geometry in the sense of the resolver's guard clauses: missing
getters, nonpositive radii, polygons with fewer than 3 points. -/
def roiMalformed : Roi → Bool
  | .point pos => pos.isNone
  | .cross pos => pos.isNone
  | .line endpoints => endpoints.isNone
  | .hline pos => pos.isNone
  | .vline pos => pos.isNone
  | .rect origin size => origin.isNone || size.isNone
  | .circle center radius =>
    center.isNone ||
      (match radius with
       | none => true
       | some r => decide (r ≤ 0))
  | .ellipse center params =>
    center.isNone ||
      (match params with
       | none => true
       | some (maj, minr, _, _) => decide (maj ≤ 0 ∨ minr ≤ 0))
  | .polygon pts => decide (pts.length < 3)
  | .arc center ri ro => center.isNone || ri.isNone || ro.isNone

theorem maskMean_false (f : Frame) : maskMean f (fun _ _ => false) = 0 := by
  simp [maskMean]

/-- Test for the `mask.sum() == 0` branch: the mask selects no pixel of the
frame. -/
def maskEmpty (f : Frame) (mask : Nat → Nat → Bool) : Bool :=
  ((gridPoints f.height f.width).filter (fun p => mask p.1 p.2)).isEmpty

theorem maskMean_of_empty (f : Frame) (mask : Nat → Nat → Bool)
    (h : maskEmpty f mask = true) : maskMean f mask = 0 := by
  unfold maskEmpty at h
  rw [List.isEmpty_iff] at h
  simp [maskMean, h]

/-- Out-of-range geometry relative to a frame: a shape whose sampling selects
no pixel of the frame — the truncated point/row/column position fails the
bounds check, no rasterized line pixel lands in bounds, or the shape's mask is
empty over the frame (e.g. a rectangle wholly outside it).  These are exactly
the sampling-side `return 0.0` branches of the resolver. -/
def roiOutOfRange (roi : Roi) (fd : Option Frame) : Bool :=
  match fd with
  | none => false
  | some f =>
    match roi with
    | .point (some (x, y)) =>
      !decide (0 ≤ pyInt y ∧ pyInt y < (f.height : ℤ) ∧ 0 ≤ pyInt x ∧ pyInt x < (f.width : ℤ))
    | .cross (some (x, y)) =>
      !decide (0 ≤ pyInt y ∧ pyInt y < (f.height : ℤ) ∧ 0 ≤ pyInt x ∧ pyInt x < (f.width : ℤ))
    | .line (some ((sx, sy), (ex, ey))) =>
      ((bresenham_line (pyInt sx) (pyInt sy) (pyInt ex) (pyInt ey)).filter (fun c =>
        decide (0 ≤ c.2 ∧ c.2 < (f.height : ℤ) ∧ 0 ≤ c.1 ∧ c.1 < (f.width : ℤ)))).isEmpty
    | .hline (some p) => !decide (0 ≤ pyInt p ∧ pyInt p < (f.height : ℤ))
    | .vline (some p) => !decide (0 ≤ pyInt p ∧ pyInt p < (f.width : ℤ))
    | .rect origin size => maskEmpty f (create_rectangle_mask origin size)
    | .circle center radius => maskEmpty f (create_circle_mask center radius)
    | .ellipse center params => maskEmpty f (create_ellipse_mask center params)
    | .polygon pts => maskEmpty f (create_polygon_mask pts)
    | .arc center ri ro => maskEmpty f (create_arc_mask center ri ro)
    | _ => false

example : compute_mean_for_roi (.point (some (1, 0)))
    (some ⟨1, 4, fun _ x => [1, 2, 5, 9].getD x 0⟩) = 2 := by decide

/-- C1. For every ROI and every frame argument (including a missing or
empty frame), `compute_mean_for_roi` is a total function into the scalars, and
every failure branch — degenerate frame, malformed geometry (missing getters,
nonpositive radii, polygons with fewer than 3 points), and out-of-range
geometry (truncated position outside the frame bounds, no in-bounds line
pixel, shape mask empty over the frame) — yields `0`.  Totality of the Lean
definition models the never-raises boundary of the source's `try`/`except`. -/
theorem roi_compute_failure_yields_zero (roi : Roi) (fd : Option Frame)
    (h : frameDegenerate fd = true ∨ roiMalformed roi = true ∨
      roiOutOfRange roi fd = true) :
    compute_mean_for_roi roi fd = 0 := by
  match fd with
  | none => rfl
  | some f =>
    rcases h with h | h | h
    · simp only [frameDegenerate, beq_iff_eq] at h
      simp [compute_mean_for_roi, h]
    · by_cases hsz : f.height * f.width = 0
      · simp [compute_mean_for_roi, hsz]
      · simp only [compute_mean_for_roi, if_neg hsz]
        match roi with
        | .point pos =>
          cases pos with
          | none => rfl
          | some p => simp [roiMalformed] at h
        | .cross pos =>
          cases pos with
          | none => rfl
          | some p => simp [roiMalformed] at h
        | .line endpoints =>
          cases endpoints with
          | none => rfl
          | some p => simp [roiMalformed] at h
        | .hline pos =>
          cases pos with
          | none => rfl
          | some p => simp [roiMalformed] at h
        | .vline pos =>
          cases pos with
          | none => rfl
          | some p => simp [roiMalformed] at h
        | .rect origin size =>
          cases origin with
          | none =>
            cases size with
            | none => simpa [compute_mask_mean, create_rectangle_mask] using maskMean_false f
            | some s => simpa [compute_mask_mean, create_rectangle_mask] using maskMean_false f
          | some o =>
            cases size with
            | none => simpa [compute_mask_mean, create_rectangle_mask] using maskMean_false f
            | some s => simp [roiMalformed] at h
        | .circle center radius =>
          cases center with
          | none =>
            cases radius with
            | none => simpa [compute_mask_mean, create_circle_mask] using maskMean_false f
            | some r => simpa [compute_mask_mean, create_circle_mask] using maskMean_false f
          | some c =>
            obtain ⟨cx, cy⟩ := c
            cases radius with
            | none => simpa [compute_mask_mean, create_circle_mask] using maskMean_false f
            | some r =>
              simp only [roiMalformed, Option.isNone_some, Bool.false_or, decide_eq_true_eq] at h
              simpa [compute_mask_mean, create_circle_mask, if_pos h] using maskMean_false f
        | .ellipse center params =>
          cases center with
          | none =>
            cases params with
            | none => simpa [compute_mask_mean, create_ellipse_mask] using maskMean_false f
            | some p => simpa [compute_mask_mean, create_ellipse_mask] using maskMean_false f
          | some c =>
            obtain ⟨cx, cy⟩ := c
            cases params with
            | none => simpa [compute_mask_mean, create_ellipse_mask] using maskMean_false f
            | some p =>
              obtain ⟨maj, minr, co, si⟩ := p
              simp only [roiMalformed, Option.isNone_some, Bool.false_or, decide_eq_true_eq] at h
              simpa [compute_mask_mean, create_ellipse_mask, if_pos h] using maskMean_false f
        | .polygon pts =>
          simp only [roiMalformed, decide_eq_true_eq] at h
          simpa [compute_mask_mean, create_polygon_mask, if_pos h] using maskMean_false f
        | .arc center ri ro =>
          cases center with
          | none =>
            cases ri <;> cases ro <;>
              simpa [compute_mask_mean, create_arc_mask] using maskMean_false f
          | some c =>
            obtain ⟨cx, cy⟩ := c
            cases ri with
            | none =>
              cases ro <;> simpa [compute_mask_mean, create_arc_mask] using maskMean_false f
            | some r1 =>
              cases ro with
              | none => simpa [compute_mask_mean, create_arc_mask] using maskMean_false f
              | some r2 => simp [roiMalformed] at h
    · by_cases hsz : f.height * f.width = 0
      · simp [compute_mean_for_roi, hsz]
      · simp only [compute_mean_for_roi, if_neg hsz]
        match roi with
        | .point pos =>
          match pos with
          | none => rfl
          | some (x, y) =>
            simp only [roiOutOfRange, Bool.not_eq_true', decide_eq_false_iff_not] at h
            simp [compute_point_mean, h]
        | .cross pos =>
          match pos with
          | none => rfl
          | some (x, y) =>
            simp only [roiOutOfRange, Bool.not_eq_true', decide_eq_false_iff_not] at h
            simp [compute_point_mean, h]
        | .line endpoints =>
          match endpoints with
          | none => rfl
          | some ((sx, sy), (ex, ey)) =>
            simp only [roiOutOfRange] at h
            rw [List.isEmpty_iff] at h
            simp only [compute_line_mean]
            rw [h]
            simp
        | .hline pos =>
          match pos with
          | none => rfl
          | some p =>
            simp only [roiOutOfRange, Bool.not_eq_true', decide_eq_false_iff_not] at h
            simp [compute_horizontal_line_mean, h]
        | .vline pos =>
          match pos with
          | none => rfl
          | some p =>
            simp only [roiOutOfRange, Bool.not_eq_true', decide_eq_false_iff_not] at h
            simp [compute_vertical_line_mean, h]
        | .rect origin size =>
          simp only [roiOutOfRange] at h
          simpa [compute_mask_mean] using maskMean_of_empty f _ h
        | .circle center radius =>
          simp only [roiOutOfRange] at h
          simpa [compute_mask_mean] using maskMean_of_empty f _ h
        | .ellipse center params =>
          simp only [roiOutOfRange] at h
          simpa [compute_mask_mean] using maskMean_of_empty f _ h
        | .polygon pts =>
          simp only [roiOutOfRange] at h
          simpa [compute_mask_mean] using maskMean_of_empty f _ h
        | .arc center ri ro =>
          simp only [roiOutOfRange] at h
          simpa [compute_mask_mean] using maskMean_of_empty f _ h

/-- A 10 x 10 frame of constant value 3, for the out-of-range point witness
(the spec's own example: a Point at (50, 50) on a 10 x 10 frame). -/
def c1Frame : Frame := ⟨10, 10, fun _ _ => 3⟩

theorem roi_compute_failure_yields_zero_witness :
    (frameDegenerate (some c1Frame) = true ∨
      roiMalformed (.point (some (50, 50))) = true ∨
      roiOutOfRange (.point (some (50, 50))) (some c1Frame) = true) ∧
    compute_mean_for_roi (.point (some (50, 50))) (some c1Frame) = 0 :=
  ⟨Or.inr (Or.inr (by decide)),
   roi_compute_failure_yields_zero (.point (some (50, 50))) (some c1Frame)
     (Or.inr (Or.inr (by decide)))⟩

/-- A concrete 1 x 4 frame with pixel row [1, 2, 5, 9], for the point-sampling
counterexample. -/
def c4Frame : Frame := ⟨1, 4, fun _ x => [1, 2, 5, 9].getD x 0⟩

/-- C4 counterexample. At position (x, y) = (2.7, 0) on `c4Frame` the code
samples pixel column `int(2.7) = 2` (value 5), not the rounded column 3
(value 9); and at position (-1/2, 0) — outside frame bounds — it returns the
value 1 of pixel (0, 0) rather than 0, because `int(-1/2) = 0` passes the
bounds check. -/
theorem point_sampling_claim_false :
    compute_mean_for_roi (.point (some (27/10, 0))) (some c4Frame) = 5 ∧
    c4Frame.pixel (round (0 : ℚ)).toNat (round ((27 : ℚ)/10)).toNat = 9 ∧
    ((5 : ℚ) ≠ 9) ∧
    compute_mean_for_roi (.point (some (-(1/2), 0))) (some c4Frame) = 1 ∧
    ((-(1/2) : ℚ) < 0) ∧ ((1 : ℚ) ≠ 0) := by
  have hx : pyInt (27/10) = 2 := by
    rw [pyInt, if_neg (by norm_num)]
    norm_num [Int.floor_eq_iff]
  have hx' : pyInt (-(1/2)) = 0 := by
    rw [pyInt, if_pos (by norm_num)]
    norm_num [Int.ceil_eq_iff]
  have hx2 : pyInt (-2⁻¹ : ℚ) = 0 := by
    rw [show (-2⁻¹ : ℚ) = -(1/2) by norm_num]
    exact hx'
  have hy : pyInt 0 = 0 := by
    rw [pyInt, if_neg (by norm_num)]
    norm_num
  have hr : round ((27 : ℚ)/10) = 3 := by
    norm_num [round_eq, Int.floor_eq_iff]
  refine ⟨?_, ?_, by decide, ?_, by norm_num, by decide⟩
  · simp [compute_mean_for_roi, compute_point_mean, c4Frame, hx, hy]
  · simp [c4Frame, hr]
  · simp [compute_mean_for_roi, compute_point_mean, c4Frame, hx2, hy]

/-- C4 (amended). For every Point or Cross ROI with position (x, y) and
every nonempty frame, `compute_mean_for_roi` samples the single pixel at the
position truncated toward zero (Python `int()`), and returns 0 exactly when
the truncated position lies outside the frame bounds — no wraparound, no
clamping. -/
theorem point_sampling_truncates (x y : ℚ) (f : Frame) (r : Roi)
    (hf : f.height * f.width ≠ 0)
    (hr : r = .point (some (x, y)) ∨ r = .cross (some (x, y))) :
    compute_mean_for_roi r (some f) =
      if 0 ≤ pyInt y ∧ pyInt y < (f.height : ℤ) ∧ 0 ≤ pyInt x ∧ pyInt x < (f.width : ℤ)
      then f.pixel (pyInt y).toNat (pyInt x).toNat else 0 := by
  rcases hr with rfl | rfl <;> simp [compute_mean_for_roi, hf, compute_point_mean]

theorem point_sampling_truncates_witness :
    c4Frame.height * c4Frame.width ≠ 0 ∧
    compute_mean_for_roi (.point (some (1, 0))) (some c4Frame) =
      (if 0 ≤ pyInt 0 ∧ pyInt 0 < (c4Frame.height : ℤ) ∧
          0 ≤ pyInt 1 ∧ pyInt 1 < (c4Frame.width : ℤ)
       then c4Frame.pixel (pyInt 0).toNat (pyInt 1).toNat else 0) :=
  ⟨by decide, point_sampling_truncates 1 0 c4Frame _ (by decide) (Or.inl rfl)⟩

/-- C5. Rectangle mask membership is exactly the half-open box
[origin, origin + size) in both axes; in particular the rectangle at origin
(0, 0) with size (3, 3) contains pixel (2, 2) and not pixel (3, 3). -/
theorem rectangle_mask_half_open :
    (∀ (x0 y0 w h : ℚ) (x y : Nat),
      create_rectangle_mask (some (x0, y0)) (some (w, h)) y x = true ↔
        (x0 ≤ (x : ℚ) ∧ (x : ℚ) < x0 + w ∧ y0 ≤ (y : ℚ) ∧ (y : ℚ) < y0 + h)) ∧
    create_rectangle_mask (some (0, 0)) (some (3, 3)) 2 2 = true ∧
    create_rectangle_mask (some (0, 0)) (some (3, 3)) 3 3 = false := by
  refine ⟨fun x0 y0 w h x y => ?_, ?_, ?_⟩
  · simp [create_rectangle_mask]
  · simp only [create_rectangle_mask, decide_eq_true_eq]
    norm_num
  · simp only [create_rectangle_mask, decide_eq_false_iff_not]
    norm_num

/-! ## The statistic cache (`roi_data_cache.py`)

Python dicts keyed by ROI name become association lists with dict semantics
(assignment replaces the first binding in place, otherwise appends; `del`
removes the binding); the reentrant lock disappears because every method runs
atomically under it, so the cache is a sequential state machine.  Timestamps
(`datetime.datetime.now()`) are opaque naturals supplied by the caller. -/

def alookup {α : Type} : List (String × α) → String → Option α
  | [], _ => none
  | (k, v) :: rest, n => if k = n then some v else alookup rest n

def dictInsert {α : Type} : List (String × α) → String → α → List (String × α)
  | [], n, v => [(n, v)]
  | (k, w) :: rest, n, v =>
    if k = n then (k, v) :: rest else (k, w) :: dictInsert rest n v

def dictErase {α : Type} (l : List (String × α)) (n : String) : List (String × α) :=
  l.filter (fun p => !decide (p.1 = n))

theorem alookup_dictInsert {α : Type} (l : List (String × α)) (n m : String) (v : α) :
    alookup (dictInsert l n v) m = if m = n then some v else alookup l m := by
  induction l with
  | nil =>
    by_cases h : m = n
    · subst h; simp [dictInsert, alookup]
    · have h' : ¬ n = m := fun hh => h hh.symm
      simp [dictInsert, alookup, h, h']
  | cons p rest ih =>
    obtain ⟨k, w⟩ := p
    by_cases hk : k = n
    · subst hk
      by_cases hm : m = k
      · subst hm; simp [dictInsert, alookup]
      · have hm' : ¬ k = m := fun hh => hm hh.symm
        simp [dictInsert, alookup, hm, hm']
    · by_cases hm : k = m
      · subst hm
        simp [dictInsert, alookup, hk]
      · simp [dictInsert, alookup, hk, hm, ih]

theorem alookup_dictErase {α : Type} (l : List (String × α)) (n m : String) :
    alookup (dictErase l n) m = if m = n then none else alookup l m := by
  induction l with
  | nil => simp [dictErase, alookup]
  | cons p rest ih =>
    obtain ⟨k, w⟩ := p
    simp only [dictErase, List.filter_cons] at ih ⊢
    by_cases hk : k = n
    · subst hk
      by_cases hm : m = k
      · subst hm; simpa [alookup] using ih
      · have hm' : ¬ k = m := fun hh => hm hh.symm
        simp [alookup, hm, hm', ih]
    · by_cases hm : k = m
      · subst hm
        have hmn : ¬ k = n := hk
        simp [alookup, hk, hmn]
      · simp [alookup, hk, hm, ih]

def updateEntry {α : Type} : List (String × α) → String → (α → α) → List (String × α)
  | [], _, _ => []
  | (k, w) :: rest, n, f =>
    if k = n then (k, f w) :: rest else (k, w) :: updateEntry rest n f

theorem alookup_updateEntry {α : Type} (l : List (String × α)) (n m : String) (f : α → α) :
    alookup (updateEntry l n f) m =
      if m = n then (alookup l n).map f else alookup l m := by
  induction l with
  | nil => simp [updateEntry, alookup]
  | cons p rest ih =>
    obtain ⟨k, w⟩ := p
    by_cases hk : k = n
    · subst hk
      by_cases hm : m = k
      · subst hm; simp [updateEntry, alookup]
      · have hm' : ¬ k = m := fun hh => hm hh.symm
        simp [updateEntry, alookup, hm, hm']
    · by_cases hm : k = m
      · subst hm
        simp [updateEntry, alookup, hk]
      · simp [updateEntry, alookup, hk, hm, ih]

theorem alookup_mapValues {α : Type} (l : List (String × α)) (g : α → α) (m : String) :
    alookup (l.map (fun p => (p.1, g p.2))) m = (alookup l m).map g := by
  induction l with
  | nil => simp [alookup]
  | cons p rest ih =>
    obtain ⟨k, w⟩ := p
    by_cases hm : k = m <;> simp [alookup, hm, ih]

/-- One dataset-mode entry of `ROIDataCache._data` (the `roi_ref` object
reference is an opaque natural). -/
structure RoiEntry where
  roiRef : Nat
  means : List ℚ
  computedFrames : Finset Nat
  totalFrames : Nat
  color : Nat
deriving DecidableEq

/-- One live-mode entry of `ROIDataCache._live_data`. -/
structure LiveEntry where
  means : List ℚ
  timestamps : List Nat
  color : Nat
deriving DecidableEq

/-- The full `ROIDataCache` state. -/
structure Cache where
  data : List (String × RoiEntry)
  liveData : List (String × LiveEntry)
  liveFrameCounter : Nat
  liveModeActive : Bool
  liveStartTime : Option Nat
deriving DecidableEq

/-- Embeds `ROIDataCache.__init__`. -/
def Cache.init : Cache := ⟨[], [], 0, false, none⟩

/-- Embeds `ROIDataCache.set_live_mode` (`now` passed explicitly as `t`). -/
def Cache.set_live_mode (c : Cache) (active : Bool) (t : Nat) : Cache :=
  if active ∧ ¬ c.liveModeActive then
    { c with liveFrameCounter := 0, liveStartTime := some t, liveModeActive := active }
  else { c with liveModeActive := active }

/-- Embeds `ROIDataCache.add_roi` (the `color=None` default resolved by the caller,
as `roi_ref.getColor()` is outside the cache). -/
def Cache.add_roi (c : Cache) (n : String) (roiRef : Nat) (totalFrames : Nat)
    (color : Nat) : Cache :=
  { c with
    data := dictInsert c.data n ⟨roiRef, List.replicate totalFrames 0, ∅, totalFrames, color⟩,
    liveData := dictInsert c.liveData n ⟨[], [], color⟩ }

/-- Embeds `ROIDataCache.remove_roi`. -/
def Cache.remove_roi (c : Cache) (n : String) : Cache :=
  { c with data := dictErase c.data n, liveData := dictErase c.liveData n }

/-- Embeds `ROIDataCache.has_roi`. -/
def Cache.has_roi (c : Cache) (n : String) : Bool := (alookup c.data n).isSome

/-- Embeds `ROIDataCache.set_mean`: no-op on unknown names; grows the means array
(zero-filled, old prefix preserved) to `max (i + 1) totalFrames` when the
index is past the end, then writes the value and records the frame. -/
def Cache.set_mean (c : Cache) (n : String) (i : Nat) (v : ℚ) : Cache :=
  match alookup c.data n with
  | none => c
  | some e =>
    let e1 :=
      if e.means.length ≤ i then
        let newSize := max (i + 1) e.totalFrames
        { e with
          means := e.means ++ List.replicate (newSize - e.means.length) 0,
          totalFrames := newSize }
      else e
    let e2 := { e1 with
      means := e1.means.set i v,
      computedFrames := insert i e1.computedFrames }
    { c with data := updateEntry c.data n (fun _ => e2) }

/-- Embeds `ROIDataCache.append_live_mean` (timestamp passed explicitly). -/
def Cache.append_live_mean (c : Cache) (n : String) (v : ℚ) (t : Nat) : Cache :=
  match alookup c.liveData n with
  | none => c
  | some e =>
    let e1 := { e with means := e.means ++ [v], timestamps := e.timestamps ++ [t] }
    { c with
      liveData := updateEntry c.liveData n (fun _ => e1),
      liveFrameCounter := max c.liveFrameCounter e1.means.length }

/-- Embeds `ROIDataCache.clear_live_data`. -/
def Cache.clear_live_data (c : Cache) : Cache :=
  { c with
    liveData := c.liveData.map (fun p => (p.1, { p.2 with means := [], timestamps := [] })),
    liveFrameCounter := 0,
    liveStartTime := none }

/-- Embeds `ROIDataCache.get_mean`: `none` unless the frame was computed and the
index is within the array bounds. -/
def Cache.get_mean (c : Cache) (n : String) (i : Nat) : Option ℚ :=
  match alookup c.data n with
  | none => none
  | some e =>
    if i ∉ e.computedFrames then none
    else if e.means.length ≤ i then none
    else some (e.means.getD i 0)

/-- Embeds `ROIDataCache.get_all_means`.  The result is `none` exactly when the numpy
fancy indexing `means[frames]` of the source would raise (a computed index not
within the array) — unreachable from the public operations, see the cache
invariant theorem.  Under the in-bounds guard, the sorted list of computed
frames is produced by filtering `range` over the array length. -/
def Cache.get_all_means (c : Cache) (n : String) : Option (List Nat × List ℚ) :=
  match alookup c.data n with
  | none => some ([], [])
  | some e =>
    if e.computedFrames = ∅ then some ([], [])
    else if ∀ f ∈ e.computedFrames, f < e.means.length then
      let frames := (List.range e.means.length).filter (fun f => f ∈ e.computedFrames)
      some (frames, frames.map (fun f => e.means.getD f 0))
    else none

/-- Embeds `ROIDataCache.get_progress`. -/
def Cache.get_progress (c : Cache) (n : String) : Nat × Nat :=
  match alookup c.data n with
  | none => (0, 0)
  | some e => (e.computedFrames.card, e.totalFrames)

/-- Embeds `ROIDataCache.is_fully_computed`. -/
def Cache.is_fully_computed (c : Cache) (n : String) : Bool :=
  match alookup c.data n with
  | none => false
  | some e => e.totalFrames ≤ e.computedFrames.card

/-- Embeds `ROIDataCache.clear_all` (live data deliberately untouched, as the source
comment states). -/
def Cache.clear_all (c : Cache) : Cache := { c with data := [] }

/-- The per-entry body of `ROIDataCache.resize_dataset` (`old_size` inlined). -/
def resizeEntry (newTotal : Nat) (e : RoiEntry) : RoiEntry :=
  if e.means.length < newTotal then
    { e with
      means := e.means ++ List.replicate (newTotal - e.means.length) 0,
      totalFrames := newTotal }
  else if newTotal < e.means.length then
    { e with
      means := e.means.take newTotal,
      computedFrames := e.computedFrames.filter (fun f => f < newTotal),
      totalFrames := newTotal }
  else { e with totalFrames := newTotal }

/-- Embeds `ROIDataCache.resize_dataset`. -/
def Cache.resize_dataset (c : Cache) (newTotal : Nat) : Cache :=
  { c with data := c.data.map (fun p => (p.1, resizeEntry newTotal p.2)) }

/-- Embeds `ROIDataCache.update_roi_geometry`: clears `computed_frames` only. -/
def Cache.update_roi_geometry (c : Cache) (n : String) : Cache :=
  match alookup c.data n with
  | none => c
  | some _ =>
    { c with data := updateEntry c.data n (fun e => { e with computedFrames := ∅ }) }

/-- The cache operations, as an operation alphabet for sequences of public
method calls (clocks passed explicitly). -/
inductive CacheOp
  | addRoi (n : String) (roiRef totalFrames color : Nat)
  | removeRoi (n : String)
  | setMean (n : String) (i : Nat) (v : ℚ)
  | appendLiveMean (n : String) (v : ℚ) (t : Nat)
  | resizeDataset (newTotal : Nat)
  | updateRoiGeometry (n : String)
  | clearLiveData
  | clearAll
  | setLiveMode (active : Bool) (t : Nat)
deriving DecidableEq

def applyOp (c : Cache) : CacheOp → Cache
  | .addRoi n r t col => c.add_roi n r t col
  | .removeRoi n => c.remove_roi n
  | .setMean n i v => c.set_mean n i v
  | .appendLiveMean n v t => c.append_live_mean n v t
  | .resizeDataset t => c.resize_dataset t
  | .updateRoiGeometry n => c.update_roi_geometry n
  | .clearLiveData => c.clear_live_data
  | .clearAll => c.clear_all
  | .setLiveMode a t => c.set_live_mode a t

def applyOps (ops : List CacheOp) (c : Cache) : Cache :=
  ops.foldl applyOp c

/-! ### Effect lemmas for the cache operations -/

theorem data_append_live_mean (c : Cache) (n : String) (v : ℚ) (t : Nat) :
    (c.append_live_mean n v t).data = c.data := by
  unfold Cache.append_live_mean
  cases alookup c.liveData n <;> rfl

theorem data_set_live_mode (c : Cache) (a : Bool) (t : Nat) :
    (c.set_live_mode a t).data = c.data := by
  unfold Cache.set_live_mode
  split <;> rfl

theorem data_clear_live_data (c : Cache) : (c.clear_live_data).data = c.data := rfl

theorem liveData_set_mean (c : Cache) (n : String) (i : Nat) (v : ℚ) :
    (c.set_mean n i v).liveData = c.liveData := by
  unfold Cache.set_mean
  cases alookup c.data n <;> rfl

theorem counter_set_mean (c : Cache) (n : String) (i : Nat) (v : ℚ) :
    (c.set_mean n i v).liveFrameCounter = c.liveFrameCounter := by
  unfold Cache.set_mean
  cases alookup c.data n <;> rfl

theorem liveData_update_roi_geometry (c : Cache) (n : String) :
    (c.update_roi_geometry n).liveData = c.liveData := by
  unfold Cache.update_roi_geometry
  cases alookup c.data n <;> rfl

theorem counter_update_roi_geometry (c : Cache) (n : String) :
    (c.update_roi_geometry n).liveFrameCounter = c.liveFrameCounter := by
  unfold Cache.update_roi_geometry
  cases alookup c.data n <;> rfl

theorem mem_dictInsert {α : Type} {l : List (String × α)} {n : String} {v : α}
    {p : String × α} (h : p ∈ dictInsert l n v) : p ∈ l ∨ p = (n, v) := by
  induction l with
  | nil => simpa [dictInsert] using h
  | cons q rest ih =>
    obtain ⟨k, w⟩ := q
    by_cases hk : k = n
    · subst hk
      simp only [dictInsert, if_true, eq_self_iff_true, List.mem_cons] at h
      rcases h with h | h
      · exact Or.inr h
      · exact Or.inl (List.mem_cons_of_mem _ h)
    · simp only [dictInsert, if_neg hk, List.mem_cons] at h
      rcases h with h | h
      · exact Or.inl (by simp [h])
      · rcases ih h with h1 | h1
        · exact Or.inl (List.mem_cons_of_mem _ h1)
        · exact Or.inr h1

theorem mem_updateEntry {α : Type} {l : List (String × α)} {n : String} {f : α → α}
    {p : String × α} (h : p ∈ updateEntry l n f) : p ∈ l ∨ ∃ w, p = (n, f w) := by
  induction l with
  | nil => simp [updateEntry] at h
  | cons q rest ih =>
    obtain ⟨k, w⟩ := q
    by_cases hk : k = n
    · subst hk
      simp only [updateEntry, if_true, eq_self_iff_true, List.mem_cons] at h
      rcases h with h | h
      · exact Or.inr ⟨w, h⟩
      · exact Or.inl (List.mem_cons_of_mem _ h)
    · simp only [updateEntry, if_neg hk, List.mem_cons] at h
      rcases h with h | h
      · exact Or.inl (by simp [h])
      · rcases ih h with h1 | h1
        · exact Or.inl (List.mem_cons_of_mem _ h1)
        · exact Or.inr h1

theorem mem_dictErase {α : Type} {l : List (String × α)} {n : String}
    {p : String × α} (h : p ∈ dictErase l n) : p ∈ l :=
  List.mem_of_mem_filter h

theorem resizeEntry_length (t : Nat) (e : RoiEntry) :
    (resizeEntry t e).means.length = t := by
  unfold resizeEntry
  split
  · next h => simp [Nat.add_sub_cancel' (Nat.le_of_lt h)]
  · split
    · next h => simp [Nat.min_eq_left (Nat.le_of_lt h)]
    · next h1 h2 => exact (Nat.le_antisymm (Nat.le_of_not_lt h1) (Nat.le_of_not_lt h2)).symm

theorem resizeEntry_total (t : Nat) (e : RoiEntry) :
    (resizeEntry t e).totalFrames = t := by
  unfold resizeEntry
  split
  · rfl
  · split <;> rfl

theorem resizeEntry_computed_subset (t : Nat) (e : RoiEntry) :
    ∀ f ∈ (resizeEntry t e).computedFrames, f ∈ e.computedFrames := by
  unfold resizeEntry
  split
  · exact fun f hf => hf
  · split
    · exact fun f hf => (Finset.mem_filter.mp hf).1
    · exact fun f hf => hf

theorem roiEntry_set_total_self (e : RoiEntry) :
    { e with totalFrames := e.totalFrames } = e := by
  cases e
  rfl

theorem resizeEntry_idem (t : Nat) (e : RoiEntry) :
    resizeEntry t (resizeEntry t e) = resizeEntry t e := by
  have hlen := resizeEntry_length t e
  have htot := resizeEntry_total t e
  conv_lhs => rw [resizeEntry]
  rw [if_neg (by omega), if_neg (by omega)]
  have h := roiEntry_set_total_self (resizeEntry t e)
  rw [htot] at h
  exact h

/-! ### C2: write-read exactness and absence -/

theorem get_mean_set_mean (c : Cache) (n : String) (i : Nat) (v : ℚ) (e : RoiEntry)
    (he : alookup c.data n = some e) :
    (c.set_mean n i v).get_mean n i = some v := by
  by_cases hgrow : e.means.length ≤ i
  · simp only [Cache.set_mean, he, if_pos hgrow, Cache.get_mean]
    rw [alookup_updateEntry, if_pos rfl, he, Option.map_some']
    have hlen :
        i < (e.means ++ List.replicate (max (i + 1) e.totalFrames - e.means.length) (0:ℚ)).length := by
      simp only [List.length_append, List.length_replicate]
      omega
    simp only [Finset.mem_insert_self, not_true_eq_false, if_false, List.length_set,
      Nat.not_le.mpr hlen, List.getD_eq_getElem?_getD,
      List.getElem?_set_eq_of_lt v hlen, Option.getD_some, ite_false]
  · simp only [Cache.set_mean, he, if_neg hgrow, Cache.get_mean]
    rw [alookup_updateEntry, if_pos rfl, he, Option.map_some']
    have hlen : i < e.means.length := Nat.lt_of_not_le hgrow
    simp only [Finset.mem_insert_self, not_true_eq_false, if_false, List.length_set,
      Nat.not_le.mpr hlen, List.getD_eq_getElem?_getD,
      List.getElem?_set_eq_of_lt v hlen, Option.getD_some, ite_false]

/-- States in which frame `i` of ROI `n` is not recorded as computed. -/
def notComputed (n : String) (i : Nat) (c : Cache) : Prop :=
  ∀ e, alookup c.data n = some e → i ∉ e.computedFrames

theorem notComputed_init (n : String) (i : Nat) : notComputed n i Cache.init := by
  intro e he
  simp [Cache.init, alookup] at he

theorem notComputed_preserved (c : Cache) (op : CacheOp) (n : String) (i : Nat)
    (hop : ∀ v : ℚ, op ≠ .setMean n i v) (hc : notComputed n i c) :
    notComputed n i (applyOp c op) := by
  intro e he
  cases op with
  | addRoi m r t col =>
    simp only [applyOp, Cache.add_roi] at he
    rw [alookup_dictInsert] at he
    by_cases hm : n = m
    · rw [if_pos hm] at he
      obtain rfl := Option.some.inj he
      simp
    · rw [if_neg hm] at he
      exact hc e he
  | removeRoi m =>
    simp only [applyOp, Cache.remove_roi] at he
    rw [alookup_dictErase] at he
    by_cases hm : n = m
    · rw [if_pos hm] at he; exact absurd he (by simp)
    · rw [if_neg hm] at he; exact hc e he
  | setMean m j v =>
    simp only [applyOp, Cache.set_mean] at he
    cases hme : alookup c.data m with
    | none => rw [hme] at he; exact hc e he
    | some em =>
      rw [hme] at he
      simp only [alookup_updateEntry] at he
      by_cases hm : n = m
      · rw [if_pos hm] at he
        subst hm
        rw [hme, Option.map_some'] at he
        obtain rfl := (Option.some.inj he).symm
        have hji : j ≠ i := by
          intro hh
          exact hop v (by rw [hh])
        have hni : i ∉ em.computedFrames := hc em hme
        simp only [Finset.mem_insert]
        rintro (rfl | hmem)
        · exact hji rfl
        · have : ((if em.means.length ≤ j then
              { em with
                means := em.means ++ List.replicate (max (j + 1) em.totalFrames - em.means.length) 0,
                totalFrames := max (j + 1) em.totalFrames }
              else em) : RoiEntry).computedFrames = em.computedFrames := by
            split <;> rfl
          rw [this] at hmem
          exact hni hmem
      · rw [if_neg hm] at he
        exact hc e he
  | appendLiveMean m v t =>
    simp only [applyOp] at he
    rw [data_append_live_mean] at he
    exact hc e he
  | resizeDataset t =>
    simp only [applyOp, Cache.resize_dataset] at he
    rw [alookup_mapValues] at he
    cases hme : alookup c.data n with
    | none => rw [hme] at he; exact absurd he (by simp)
    | some em =>
      rw [hme, Option.map_some'] at he
      obtain rfl := (Option.some.inj he).symm
      intro hmem
      exact hc em hme (resizeEntry_computed_subset t em i hmem)
  | updateRoiGeometry m =>
    simp only [applyOp, Cache.update_roi_geometry] at he
    cases hme : alookup c.data m with
    | none => rw [hme] at he; exact hc e he
    | some em =>
      rw [hme] at he
      simp only [alookup_updateEntry] at he
      by_cases hm : n = m
      · rw [if_pos hm] at he
        subst hm
        rw [hme, Option.map_some'] at he
        obtain rfl := (Option.some.inj he).symm
        simp
      · rw [if_neg hm] at he
        exact hc e he
  | clearLiveData =>
    simp only [applyOp] at he
    rw [data_clear_live_data] at he
    exact hc e he
  | clearAll =>
    simp only [applyOp, Cache.clear_all] at he
    simp [alookup] at he
  | setLiveMode a t =>
    simp only [applyOp] at he
    rw [data_set_live_mode] at he
    exact hc e he

theorem notComputed_ops (ops : List CacheOp) (n : String) (i : Nat) :
    ∀ c : Cache, (∀ op ∈ ops, ∀ v : ℚ, op ≠ .setMean n i v) → notComputed n i c →
      notComputed n i (applyOps ops c) := by
  induction ops with
  | nil => intro c _ hc; exact hc
  | cons op ops ih =>
    intro c hops hc
    have h1 : notComputed n i (applyOp c op) :=
      notComputed_preserved c op n i (hops op (List.mem_cons_self _ _)) hc
    exact ih (applyOp c op) (fun o ho => hops o (List.mem_cons_of_mem _ ho)) h1

theorem get_mean_none_of_notComputed (c : Cache) (n : String) (i : Nat)
    (h : notComputed n i c) : c.get_mean n i = none := by
  unfold Cache.get_mean
  cases he : alookup c.data n with
  | none => rfl
  | some e => simp [h e he]

/-- C2. For every registered ROI name, `set_mean` immediately followed by
`get_mean` on the same (name, frame index) returns exactly the written value;
and after any operation sequence from the empty cache in which `set_mean` was
never called on (n, i), `get_mean n i` is absent (`none`). -/
theorem cache_set_get_exact :
    (∀ (c : Cache) (n : String) (i : Nat) (v : ℚ),
      (alookup c.data n).isSome = true →
      (c.set_mean n i v).get_mean n i = some v) ∧
    (∀ (ops : List CacheOp) (n : String) (i : Nat),
      (∀ v : ℚ, CacheOp.setMean n i v ∉ ops) →
      (applyOps ops Cache.init).get_mean n i = none) := by
  constructor
  · intro c n i v h
    obtain ⟨e, he⟩ := Option.isSome_iff_exists.mp h
    exact get_mean_set_mean c n i v e he
  · intro ops n i h
    refine get_mean_none_of_notComputed _ n i
      (notComputed_ops ops n i Cache.init ?_ (notComputed_init n i))
    intro op hop v hv
    exact h v (hv ▸ hop)

theorem cache_set_get_exact_witness :
    (alookup (Cache.init.add_roi "A" 0 3 0).data "A").isSome = true ∧
    ((Cache.init.add_roi "A" 0 3 0).set_mean "A" 1 5).get_mean "A" 1 = some 5 :=
  ⟨by decide, cache_set_get_exact.1 (Cache.init.add_roi "A" 0 3 0) "A" 1 5 (by decide)⟩

/-! ### C3: resize bounds and idempotence -/

theorem get_all_means_entry (c : Cache) (n : String) (e : RoiEntry)
    (he : alookup c.data n = some e) :
    c.get_all_means n =
      if e.computedFrames = ∅ then some ([], [])
      else if ∀ f ∈ e.computedFrames, f < e.means.length then
        some ((List.range e.means.length).filter (fun f => f ∈ e.computedFrames),
          ((List.range e.means.length).filter (fun f => f ∈ e.computedFrames)).map
            (fun f => e.means.getD f 0))
      else none := by
  unfold Cache.get_all_means
  rw [he]

/-- C3. After `resize_dataset new_total`, `get_all_means` (whenever the
source would return rather than raise) only reports frame indices strictly
below `new_total`; and `resize_dataset` is idempotent on every cache state. -/
theorem resize_dataset_bounds_and_idem :
    (∀ (c : Cache) (t : Nat) (n : String) (frames : List Nat) (vals : List ℚ),
      (c.resize_dataset t).get_all_means n = some (frames, vals) →
      ∀ f ∈ frames, f < t) ∧
    (∀ (c : Cache) (t : Nat), (c.resize_dataset t).resize_dataset t = c.resize_dataset t) := by
  constructor
  · intro c t n frames vals h f hf
    have hdata : (c.resize_dataset t).data = c.data.map (fun p => (p.1, resizeEntry t p.2)) := rfl
    cases hme : alookup c.data n with
    | none =>
      have hnone : alookup (c.resize_dataset t).data n = none := by
        rw [hdata, alookup_mapValues, hme]; rfl
      unfold Cache.get_all_means at h
      rw [hnone] at h
      obtain ⟨hfr, hvl⟩ := Prod.mk.inj (Option.some.inj h)
      rw [← hfr] at hf
      simp at hf
    | some e =>
      have hsome : alookup (c.resize_dataset t).data n = some (resizeEntry t e) := by
        rw [hdata, alookup_mapValues, hme]; rfl
      rw [get_all_means_entry _ n _ hsome] at h
      by_cases h1 : (resizeEntry t e).computedFrames = ∅
      · rw [if_pos h1] at h
        obtain ⟨hfr, hvl⟩ := Prod.mk.inj (Option.some.inj h)
        rw [← hfr] at hf
        simp at hf
      · rw [if_neg h1] at h
        by_cases h2 : ∀ g ∈ (resizeEntry t e).computedFrames, g < (resizeEntry t e).means.length
        · rw [if_pos h2] at h
          obtain ⟨hfr, hvl⟩ := Prod.mk.inj (Option.some.inj h)
          rw [← hfr] at hf
          have hmem := (List.mem_filter.mp hf).1
          rw [List.mem_range, resizeEntry_length] at hmem
          exact hmem
        · rw [if_neg h2] at h
          exact absurd h (by simp)
  · intro c t
    simp only [Cache.resize_dataset, List.map_map]
    have hfun : ((fun p => (p.1, resizeEntry t p.2)) ∘
        (fun p : String × RoiEntry => (p.1, resizeEntry t p.2))) =
        (fun p : String × RoiEntry => (p.1, resizeEntry t p.2)) := by
      funext p
      simp [Function.comp, resizeEntry_idem]
    rw [hfun]

def c3w : Cache := ⟨[("A", ⟨0, [1, 5, 3], {1}, 3, 0⟩)], [], 0, false, none⟩

theorem resize_dataset_bounds_witness :
    (c3w.resize_dataset 2).get_all_means "A" = some ([1], [5]) ∧ (1 : Nat) < 2 :=
  ⟨by decide, resize_dataset_bounds_and_idem.1 c3w 2 "A" [1] [5] (by decide) 1 (by decide)⟩

/-! ### C6: geometry invalidation clears only the computed set -/

/-- C6. For a registered name, `update_roi_geometry` empties that ROI's
computed set and changes nothing else: the ROI's means, total frame count,
color and object reference, every other ROI's entry, and all live-mode state
are untouched. -/
theorem update_geometry_clears_computed_only (c : Cache) (n : String) (e : RoiEntry)
    (he : alookup c.data n = some e) :
    alookup (c.update_roi_geometry n).data n = some { e with computedFrames := ∅ } ∧
    (∀ m, m ≠ n → alookup (c.update_roi_geometry n).data m = alookup c.data m) ∧
    (c.update_roi_geometry n).liveData = c.liveData ∧
    (c.update_roi_geometry n).liveFrameCounter = c.liveFrameCounter ∧
    (c.update_roi_geometry n).liveModeActive = c.liveModeActive ∧
    (c.update_roi_geometry n).liveStartTime = c.liveStartTime := by
  refine ⟨?_, ?_, liveData_update_roi_geometry c n, counter_update_roi_geometry c n, ?_, ?_⟩
  · simp [Cache.update_roi_geometry, he, alookup_updateEntry]
  · intro m hm
    simp [Cache.update_roi_geometry, he, alookup_updateEntry, hm]
  · unfold Cache.update_roi_geometry
    rw [he]
  · unfold Cache.update_roi_geometry
    rw [he]

def c6w : Cache := ⟨[("A", ⟨0, [7], {0}, 1, 2⟩), ("B", ⟨0, [], ∅, 0, 0⟩)], [], 0, false, none⟩

def c6e : RoiEntry := ⟨0, [7], {0}, 1, 2⟩

theorem update_geometry_clears_computed_only_witness :
    alookup c6w.data "A" = some c6e ∧
    alookup (c6w.update_roi_geometry "A").data "A" = some { c6e with computedFrames := ∅ } :=
  ⟨by decide, (update_geometry_clears_computed_only c6w "A" c6e (by decide)).1⟩

/-! ### C10: the implicit cache invariant -/

/-- Entry well-formedness: the means array matches `total_frames` and every
computed index is inside the array. -/
def cacheWF (c : Cache) : Prop :=
  ∀ n e, alookup c.data n = some e →
    e.means.length = e.totalFrames ∧ ∀ f ∈ e.computedFrames, f < e.means.length

theorem cacheWF_init : cacheWF Cache.init := by
  intro n e he
  simp [Cache.init, alookup] at he

theorem resizeEntry_computed_lt (t : Nat) (e : RoiEntry)
    (hwf : ∀ f ∈ e.computedFrames, f < e.means.length) :
    ∀ f ∈ (resizeEntry t e).computedFrames, f < t := by
  unfold resizeEntry
  split
  · next hlt => exact fun f hf => lt_trans (hwf f hf) hlt
  · split
    · next h2 => exact fun f hf => (Finset.mem_filter.mp hf).2
    · next h1 h2 =>
      intro f hf
      have := hwf f hf
      omega

theorem cacheWF_preserved (c : Cache) (op : CacheOp) (h : cacheWF c) :
    cacheWF (applyOp c op) := by
  intro n e he
  cases op with
  | addRoi m r t col =>
    simp only [applyOp, Cache.add_roi] at he
    rw [alookup_dictInsert] at he
    by_cases hm : n = m
    · rw [if_pos hm] at he
      obtain rfl := (Option.some.inj he).symm
      exact ⟨by simp, by simp⟩
    · rw [if_neg hm] at he
      exact h n e he
  | removeRoi m =>
    simp only [applyOp, Cache.remove_roi] at he
    rw [alookup_dictErase] at he
    by_cases hm : n = m
    · rw [if_pos hm] at he
      exact absurd he (by simp)
    · rw [if_neg hm] at he
      exact h n e he
  | setMean m j v =>
    simp only [applyOp, Cache.set_mean] at he
    cases hme : alookup c.data m with
    | none => rw [hme] at he; exact h n e he
    | some em =>
      rw [hme] at he
      simp only [alookup_updateEntry] at he
      by_cases hm : n = m
      · rw [if_pos hm] at he
        subst hm
        rw [hme, Option.map_some'] at he
        obtain rfl := (Option.some.inj he).symm
        obtain ⟨hwl, hwf⟩ := h n em hme
        by_cases hgrow : em.means.length ≤ j
        · simp only [if_pos hgrow]
          refine ⟨?_, ?_⟩
          · simp only [List.length_set, List.length_append, List.length_replicate]
            omega
          · intro f hf
            simp only [List.length_set, List.length_append, List.length_replicate]
            rcases Finset.mem_insert.mp hf with rfl | hf
            · omega
            · have := hwf f hf
              omega
        · simp only [if_neg hgrow]
          refine ⟨?_, ?_⟩
          · simp only [List.length_set]
            exact hwl
          · intro f hf
            simp only [List.length_set]
            rcases Finset.mem_insert.mp hf with rfl | hf
            · omega
            · exact hwf f hf
      · rw [if_neg hm] at he
        exact h n e he
  | appendLiveMean m v t =>
    simp only [applyOp] at he
    rw [data_append_live_mean] at he
    exact h n e he
  | resizeDataset t =>
    simp only [applyOp, Cache.resize_dataset] at he
    rw [alookup_mapValues] at he
    cases hme : alookup c.data n with
    | none => rw [hme] at he; exact absurd he (by simp)
    | some em =>
      rw [hme, Option.map_some'] at he
      obtain rfl := (Option.some.inj he).symm
      obtain ⟨hwl, hwf⟩ := h n em hme
      refine ⟨by rw [resizeEntry_length, resizeEntry_total], ?_⟩
      intro f hf
      rw [resizeEntry_length]
      exact resizeEntry_computed_lt t em hwf f hf
  | updateRoiGeometry m =>
    simp only [applyOp, Cache.update_roi_geometry] at he
    cases hme : alookup c.data m with
    | none => rw [hme] at he; exact h n e he
    | some em =>
      rw [hme] at he
      simp only [alookup_updateEntry] at he
      by_cases hm : n = m
      · rw [if_pos hm] at he
        subst hm
        rw [hme, Option.map_some'] at he
        obtain rfl := (Option.some.inj he).symm
        obtain ⟨hwl, _⟩ := h n em hme
        exact ⟨hwl, by simp⟩
      · rw [if_neg hm] at he
        exact h n e he
  | clearLiveData =>
    simp only [applyOp] at he
    rw [data_clear_live_data] at he
    exact h n e he
  | clearAll =>
    simp only [applyOp, Cache.clear_all] at he
    simp [alookup] at he
  | setLiveMode a t =>
    simp only [applyOp] at he
    rw [data_set_live_mode] at he
    exact h n e he

theorem cacheWF_ops (ops : List CacheOp) :
    ∀ c : Cache, cacheWF c → cacheWF (applyOps ops c) := by
  induction ops with
  | nil => exact fun c hc => hc
  | cons op ops ih => exact fun c hc => ih (applyOp c op) (cacheWF_preserved c op hc)

theorem get_all_means_isSome_of_WF (c : Cache) (h : cacheWF c) (n : String) :
    (c.get_all_means n).isSome = true := by
  unfold Cache.get_all_means
  cases he : alookup c.data n with
  | none => rfl
  | some e =>
    by_cases h1 : e.computedFrames = ∅
    · simp [h1]
    · have h2 := (h n e he).2
      simp [h1]
      exact h2

/-- C10. After every sequence of cache operations from the empty cache,
every reachable entry satisfies `means.length = total_frames` with all
computed indices inside the array, so `get_all_means` never indexes out of
bounds (its faithful model never returns the `none` that models the numpy
IndexError). -/
theorem cache_invariant_holds (ops : List CacheOp) :
    cacheWF (applyOps ops Cache.init) ∧
    ∀ n, ((applyOps ops Cache.init).get_all_means n).isSome = true := by
  have hwf := cacheWF_ops ops Cache.init cacheWF_init
  exact ⟨hwf, fun n => get_all_means_isSome_of_WF _ hwf n⟩

/-! ### C8 and C9: live-mode log and counter -/

theorem liveData_resize_dataset (c : Cache) (t : Nat) :
    (c.resize_dataset t).liveData = c.liveData := rfl

theorem liveData_clear_all (c : Cache) : (c.clear_all).liveData = c.liveData := rfl

theorem liveData_set_live_mode (c : Cache) (a : Bool) (t : Nat) :
    (c.set_live_mode a t).liveData = c.liveData := by
  unfold Cache.set_live_mode
  split <;> rfl

theorem counter_add_roi (c : Cache) (n : String) (r t col : Nat) :
    (c.add_roi n r t col).liveFrameCounter = c.liveFrameCounter := rfl

theorem counter_remove_roi (c : Cache) (n : String) :
    (c.remove_roi n).liveFrameCounter = c.liveFrameCounter := rfl

theorem counter_resize_dataset (c : Cache) (t : Nat) :
    (c.resize_dataset t).liveFrameCounter = c.liveFrameCounter := rfl

theorem counter_clear_all (c : Cache) :
    (c.clear_all).liveFrameCounter = c.liveFrameCounter := rfl

/-- Evolution of one ROI's live entry that the claim allows between explicit
clears: left unchanged, or appended with one (value, timestamp) pair. -/
def livePreserved (before after : Option LiveEntry) : Prop :=
  after = before ∨
    ∃ e v t, before = some e ∧
      after = some { e with means := e.means ++ [v], timestamps := e.timestamps ++ [t] }

/-- The operations that legitimately reset or delete ROI `n`'s live entry in
the source: the explicit clear, re-adding `n` (overwrites the live entry with
an empty one), and removing `n`. -/
def explicitLiveReset (op : CacheOp) (n : String) : Prop :=
  op = .clearLiveData ∨ (∃ r t col, op = .addRoi n r t col) ∨ op = .removeRoi n

def c8s1 : Cache := applyOps [.addRoi "A" 0 3 0, .appendLiveMean "A" 1 0] Cache.init

/-- C8 counterexample. Re-adding the already-registered ROI "A" (an
`add_roi` call, not a clear/export) replaces its live log [1] with the empty
log: the live entry is neither left unchanged nor appended to. -/
theorem live_log_claim_false :
    ¬ livePreserved (alookup c8s1.liveData "A")
      (alookup (applyOp c8s1 (.addRoi "A" 0 3 0)).liveData "A") := by
  have hb : alookup c8s1.liveData "A" = some ⟨[1], [0], 0⟩ := by decide
  have ha : alookup (applyOp c8s1 (.addRoi "A" 0 3 0)).liveData "A" = some ⟨[], [], 0⟩ := by
    decide
  intro hcl
  rw [hb, ha] at hcl
  rcases hcl with hcl | ⟨e, v, t, he, happ⟩
  · exact absurd (Option.some.inj hcl) (by decide)
  · obtain rfl := Option.some.inj he
    have hm := congrArg LiveEntry.means (Option.some.inj happ)
    simp at hm

/-- C8 (amended). A registered ROI's live cache entry is never cleared,
truncated, or replaced by any cache operation other than the explicit
live-data clear, re-adding the same name (`add_roi` overwrites the live entry
with an empty one), and `remove_roi` (which deletes it): every other
operation either appends one (value, timestamp) pair or leaves the entry
unchanged. -/
theorem live_log_append_only (c : Cache) (op : CacheOp) (n : String)
    (h : ¬ explicitLiveReset op n) :
    livePreserved (alookup c.liveData n) (alookup (applyOp c op).liveData n) := by
  cases op with
  | addRoi m r t col =>
    have hm : ¬ n = m := by
      intro hh
      exact h (Or.inr (Or.inl ⟨r, t, col, by rw [hh]⟩))
    left
    simp only [applyOp, Cache.add_roi]
    rw [alookup_dictInsert, if_neg hm]
  | removeRoi m =>
    have hm : ¬ n = m := by
      intro hh
      exact h (Or.inr (Or.inr (by rw [hh])))
    left
    simp only [applyOp, Cache.remove_roi]
    rw [alookup_dictErase, if_neg hm]
  | setMean m j v =>
    left
    simp only [applyOp]
    rw [liveData_set_mean]
  | appendLiveMean m v t =>
    simp only [applyOp, Cache.append_live_mean]
    cases hme : alookup c.liveData m with
    | none => exact Or.inl rfl
    | some e =>
      simp only [alookup_updateEntry]
      by_cases hm : n = m
      · subst hm
        rw [if_pos rfl, hme, Option.map_some']
        exact Or.inr ⟨e, v, t, rfl, rfl⟩
      · rw [if_neg hm]
        exact Or.inl rfl
  | resizeDataset t =>
    left
    simp only [applyOp]
    rw [liveData_resize_dataset]
  | updateRoiGeometry m =>
    left
    simp only [applyOp]
    rw [liveData_update_roi_geometry]
  | clearLiveData => exact absurd (Or.inl rfl) h
  | clearAll =>
    left
    simp only [applyOp]
    rw [liveData_clear_all]
  | setLiveMode a t =>
    left
    simp only [applyOp]
    rw [liveData_set_live_mode]

theorem live_log_append_only_witness :
    ¬ explicitLiveReset (.setMean "A" 0 5) "A" ∧
    livePreserved (alookup c8s1.liveData "A")
      (alookup (applyOp c8s1 (.setMean "A" 0 5)).liveData "A") :=
  ⟨by simp [explicitLiveReset],
   live_log_append_only c8s1 (.setMean "A" 0 5) "A" (by simp [explicitLiveReset])⟩

/-- The maximal live-log length across all tracked ROIs. -/
def maxLiveLen (c : Cache) : Nat :=
  (c.liveData.map (fun p => p.2.means.length)).foldr max 0

/-- The operations that reset the live frame counter in the source: the
explicit clear and a live-mode toggle (activation resets the counter). -/
def resetsLiveCounter (op : CacheOp) : Prop :=
  op = .clearLiveData ∨ ∃ a t, op = .setLiveMode a t

theorem foldrMax_le {l : List Nat} {k : Nat} : l.foldr max 0 ≤ k ↔ ∀ x ∈ l, x ≤ k := by
  induction l with
  | nil => simp
  | cons a l ih => simp [Nat.max_le, ih]

theorem le_foldrMax {l : List Nat} {x : Nat} (hx : x ∈ l) : x ≤ l.foldr max 0 :=
  (foldrMax_le.mp (Nat.le_refl _)) x hx

def c9ops : List CacheOp :=
  [.addRoi "A" 0 0 0, .appendLiveMean "A" 1 0, .appendLiveMean "A" 2 1,
   .removeRoi "A", .addRoi "B" 0 0 0, .appendLiveMean "B" 5 2]

/-- C9 counterexample. After the clear-free operation sequence `c9ops`
(add "A", append twice, remove "A", add "B", append once) the live frame
counter is 2 while the maximum live-log length across the tracked ROIs is 1:
the counter does not equal that maximum, because `remove_roi` leaves the
counter behind. -/
theorem live_counter_claim_false :
    (applyOps c9ops Cache.init).liveFrameCounter = 2 ∧
    maxLiveLen (applyOps c9ops Cache.init) = 1 ∧ (2 : Nat) ≠ 1 :=
  ⟨by decide, by decide, by decide⟩

theorem counter_mono_step (c : Cache) (op : CacheOp) (h : ¬ resetsLiveCounter op) :
    c.liveFrameCounter ≤ (applyOp c op).liveFrameCounter := by
  cases op with
  | addRoi m r t col => exact Nat.le_refl _
  | removeRoi m => exact Nat.le_refl _
  | setMean m j v =>
    simp only [applyOp]
    rw [counter_set_mean]
  | appendLiveMean m v t =>
    simp only [applyOp, Cache.append_live_mean]
    cases hme : alookup c.liveData m with
    | none => exact Nat.le_refl _
    | some e => exact Nat.le_max_left _ _
  | resizeDataset t => exact Nat.le_refl _
  | updateRoiGeometry m =>
    simp only [applyOp]
    rw [counter_update_roi_geometry]
  | clearLiveData => exact absurd (Or.inl rfl) h
  | clearAll => exact Nat.le_refl _
  | setLiveMode a t => exact absurd (Or.inr ⟨a, t, rfl⟩) h

theorem maxLiveLen_le_counter_step (c : Cache) (op : CacheOp) (h : ¬ resetsLiveCounter op)
    (hc : maxLiveLen c ≤ c.liveFrameCounter) :
    maxLiveLen (applyOp c op) ≤ (applyOp c op).liveFrameCounter := by
  unfold maxLiveLen at hc
  cases op with
  | addRoi m r t col =>
    simp only [applyOp, Cache.add_roi, maxLiveLen]
    rw [foldrMax_le]
    intro x hx
    obtain ⟨p, hp, rfl⟩ := List.mem_map.mp hx
    rcases mem_dictInsert hp with hp1 | hp1
    · exact le_trans (le_foldrMax (List.mem_map_of_mem (fun q => q.2.means.length) hp1)) hc
    · rw [hp1]
      exact Nat.zero_le _
  | removeRoi m =>
    simp only [applyOp, Cache.remove_roi, maxLiveLen]
    rw [foldrMax_le]
    intro x hx
    obtain ⟨p, hp, rfl⟩ := List.mem_map.mp hx
    exact le_trans
      (le_foldrMax (List.mem_map_of_mem (fun q => q.2.means.length) (mem_dictErase hp))) hc
  | setMean m j v =>
    simp only [applyOp, maxLiveLen]
    rw [liveData_set_mean, counter_set_mean]
    exact hc
  | appendLiveMean m v t =>
    simp only [applyOp, Cache.append_live_mean]
    cases hme : alookup c.liveData m with
    | none => exact hc
    | some e =>
      simp only [maxLiveLen]
      rw [foldrMax_le]
      intro x hx
      obtain ⟨p, hp, rfl⟩ := List.mem_map.mp hx
      rcases mem_updateEntry hp with hp1 | ⟨w, hp1⟩
      · exact le_trans
          (le_trans (le_foldrMax (List.mem_map_of_mem (fun q => q.2.means.length) hp1)) hc)
          (Nat.le_max_left _ _)
      · rw [hp1]
        simp only [List.length_append, List.length_singleton]
        exact Nat.le_max_right _ _
  | resizeDataset t =>
    simp only [applyOp, maxLiveLen]
    rw [liveData_resize_dataset, counter_resize_dataset]
    exact hc
  | updateRoiGeometry m =>
    simp only [applyOp, maxLiveLen]
    rw [liveData_update_roi_geometry, counter_update_roi_geometry]
    exact hc
  | clearLiveData => exact absurd (Or.inl rfl) h
  | clearAll =>
    simp only [applyOp, maxLiveLen]
    rw [liveData_clear_all, counter_clear_all]
    exact hc
  | setLiveMode a t => exact absurd (Or.inr ⟨a, t, rfl⟩) h

theorem live_counter_invariant_ops (ops : List CacheOp) :
    ∀ c : Cache, (∀ op ∈ ops, ¬ resetsLiveCounter op) →
      maxLiveLen c ≤ c.liveFrameCounter →
      maxLiveLen (applyOps ops c) ≤ (applyOps ops c).liveFrameCounter ∧
      c.liveFrameCounter ≤ (applyOps ops c).liveFrameCounter := by
  induction ops with
  | nil => exact fun c _ hc => ⟨hc, Nat.le_refl _⟩
  | cons op ops ih =>
    intro c hops hc
    have h1 := maxLiveLen_le_counter_step c op (hops op (List.mem_cons_self _ _)) hc
    have h2 := counter_mono_step c op (hops op (List.mem_cons_self _ _))
    obtain ⟨ha, hb⟩ := ih (applyOp c op) (fun o ho => hops o (List.mem_cons_of_mem _ ho)) h1
    exact ⟨ha, le_trans h2 hb⟩

/-- C9 (amended). Along every operation sequence from the empty cache that
contains no explicit live-data clear and no live-mode toggle, the live frame
counter is monotonically non-decreasing and is greater than or equal to (not
necessarily equal to, since `remove_roi` and re-`add_roi` can shrink the logs
without lowering the counter) the maximum length across all tracked ROIs'
live logs; each `append_live_mean` on a registered name sets the counter to
the maximum of its previous value and the appending ROI's new log length. -/
theorem live_counter_dominates (ops more : List CacheOp)
    (h1 : ∀ op ∈ ops, ¬ resetsLiveCounter op)
    (h2 : ∀ op ∈ more, ¬ resetsLiveCounter op) :
    maxLiveLen (applyOps ops Cache.init) ≤ (applyOps ops Cache.init).liveFrameCounter ∧
    (applyOps ops Cache.init).liveFrameCounter ≤
      (applyOps (ops ++ more) Cache.init).liveFrameCounter ∧
    (∀ (c : Cache) (n : String) (v : ℚ) (t : Nat) (e : LiveEntry),
      alookup c.liveData n = some e →
      (c.append_live_mean n v t).liveFrameCounter =
        max c.liveFrameCounter (e.means.length + 1)) := by
  have hinit : maxLiveLen Cache.init ≤ Cache.init.liveFrameCounter := Nat.le_refl 0
  obtain ⟨ha, _⟩ := live_counter_invariant_ops ops Cache.init h1 hinit
  refine ⟨ha, ?_, ?_⟩
  · have happ : applyOps (ops ++ more) Cache.init = applyOps more (applyOps ops Cache.init) := by
      unfold applyOps
      rw [List.foldl_append]
    rw [happ]
    exact (live_counter_invariant_ops more (applyOps ops Cache.init) h2 ha).2
  · intro c n v t e he
    unfold Cache.append_live_mean
    rw [he]
    simp [List.length_append]

theorem live_counter_dominates_witness :
    (∀ op ∈ c9ops, ¬ resetsLiveCounter op) ∧
    maxLiveLen (applyOps c9ops Cache.init) ≤ (applyOps c9ops Cache.init).liveFrameCounter := by
  have hops : ∀ op ∈ c9ops, ¬ resetsLiveCounter op := by
    intro op hop
    simp only [c9ops, List.mem_cons, List.not_mem_nil, or_false] at hop
    rcases hop with rfl | rfl | rfl | rfl | rfl | rfl <;> simp [resetsLiveCounter]
  exact ⟨hops, (live_counter_dominates c9ops [] hops (by simp)).1⟩

/-! ## The computation engine (`roi_computation_engine.py`), bulk path -/

/-- The dataset handle seen by `ROIComputationEngine`: a 3D stack of frames,
a single 2D frame, or a handle of any other dimensionality (for which the
bulk loop's `else: continue` skips every frame). -/
inductive Dataset
  | d3 (frames : List Frame)
  | d2 (frame : Frame)
  | dOther

/-- Frame extraction of the bulk loop body; `none` models both the
`else: continue` branch and an out-of-range index raising inside the
per-frame `try` (caught, and the loop continues with the other frames). -/
def frameAt : Dataset → Nat → Option Frame
  | .d3 frames, i => frames.get? i
  | .d2 f, _ => some f
  | .dOther, _ => none

/-- The Qt signals the engine emits, as plain events. -/
inductive EngineEvent
  | errorOccurred (roiName msg : String)
  | bulkProgress (roiName : String) (framesDone totalFrames : Nat)
  | bulkAnalysisComplete (roiName : String)
deriving DecidableEq

/-- Embeds `self.chunk_size` of the engine. -/
def chunkSize : Nat := 100

/-- Split a list into consecutive chunks of `k` elements (the
`for i in range(0, len(frames_to_compute), self.chunk_size)` slicing).  The
`k = 0` guard only keeps the definition total; the engine always passes 100. -/
def listChunks {α : Type} (k : Nat) (l : List α) : List (List α) :=
  match k, l with
  | _, [] => []
  | 0, _ :: _ => []
  | Nat.succ k, x :: xs =>
    (x :: xs).take (Nat.succ k) :: listChunks (Nat.succ k) ((x :: xs).drop (Nat.succ k))
termination_by l.length
decreasing_by
  simp only [List.length_drop, List.length_cons]
  omega

/-- One bulk worker (`ROIComputationWorker.run`): compute the statistic and
store it in the cache (bulk workers have no signals connected). -/
def runBulkWorker (roiName : String) (roi : Roi) (i : Nat) (fd : Frame)
    (cache : Cache) : Cache :=
  cache.set_mean roiName i (compute_mean_for_roi roi (some fd))

/-- One chunk of the bulk loop: submit a worker per frame, skipping frames
whose extraction fails. -/
def processChunk (ds : Dataset) (roiName : String) (roi : Roi) (chunk : List Nat)
    (cache : Cache) : Cache :=
  chunk.foldl (fun c i =>
    match frameAt ds i with
    | none => c
    | some fd => runBulkWorker roiName roi i fd c) cache

/-- Embeds `ROIComputationEngine._process_bulk_task`, linearized: the pool workers of
a chunk are applied to the cache in frame order (the real pool may complete
them out of order, but each write touches a single independent (ROI, frame)
cell), the priority queue stays empty and the engine keeps running, so no
preemption or early exit occurs.  With no dataset set, the job is dropped
with an immediate error event. -/
def process_bulk_task (dataset : Option Dataset) (cache : Cache) (roiName : String)
    (roi : Roi) (totalFrames : Nat) : Cache × List EngineEvent :=
  match dataset with
  | none => (cache, [.errorOccurred roiName "No dataset available for bulk computation"])
  | some ds =>
    let framesToCompute := (List.range totalFrames).filter
      (fun i => (cache.get_mean roiName i).isNone)
    if framesToCompute.length = 0 then (cache, [.bulkAnalysisComplete roiName])
    else
      let step := fun (acc : Cache × List EngineEvent) (chunk : List Nat) =>
        let c2 := processChunk ds roiName roi chunk acc.1
        (c2, acc.2 ++
          [EngineEvent.bulkProgress roiName (c2.get_progress roiName).1
            (c2.get_progress roiName).2])
      let res := (listChunks chunkSize framesToCompute).foldl step (cache, [])
      (res.1, res.2 ++ [.bulkAnalysisComplete roiName])

/-- C7. Processing a bulk job while no dataset is set surfaces the error
event immediately and drops the job: the cache comes back unchanged and the
only event is the error. -/
theorem bulk_no_dataset_drops_job (cache : Cache) (roiName : String) (roi : Roi)
    (totalFrames : Nat) :
    process_bulk_task none cache roiName roi totalFrames =
      (cache, [.errorOccurred roiName "No dataset available for bulk computation"]) := rfl
